import Mathlib

/-!
Shallow embedding of `staticmaps/cairo_renderer.py` (py-staticmaps).

The cairo drawing context is modelled by its transformation state: since the
renderer only ever applies translations, the current transformation is a pair
of integer offsets together with the save/restore stack.  Each rendering
method is embedded as a pure function producing the trace of externally
visible events (object render invocations, tile-fetch callback invocations,
tile paints) next to the final context state; Python exceptions are modelled
by an explicit exception-class value threaded through the computation, since
`render_tiles` catches exactly the class `RuntimeError`.
-/

namespace StaticMaps

/-- Python exception classes relevant to the renderer.  `except RuntimeError`
in `render_tiles` catches exactly `runtimeError`; `unidentifiedImageError` is
what `PIL.Image.open` raises on undecodable bytes (a subclass of `OSError`,
not of `RuntimeError`); `valueError` and `memoryError` stand for further
classes an injected callback may raise. -/
inductive Exc
  | runtimeError
  | unidentifiedImageError
  | valueError
  | memoryError
  deriving DecidableEq, Repr

/-- The transformer, at the interface the renderer consumes: the cached
accessors `image_width`, `image_height`, `world_width`, `zoom`, `tile_size`,
`number_of_tiles`, `first_tile_x/y`, `tiles_x/y`, `tile_offset_x/y` of the
`Transformer` object passed to `CairoRenderer`. -/
structure Trans where
  image_width : ℕ
  image_height : ℕ
  world_width : ℕ
  zoom : ℕ
  tile_size : ℕ
  number_of_tiles : ℕ
  first_tile_x : ℤ
  first_tile_y : ℤ
  tiles_x : ℕ
  tiles_y : ℕ
  tile_offset_x : ℤ
  tile_offset_y : ℤ
  deriving DecidableEq, Repr

/-- The cairo context's transformation state: the renderer only applies
translations, so the current transformation matrix is a translation vector,
and `save`/`restore` maintain a stack of such vectors. -/
structure Ctx where
  translation : ℤ × ℤ
  stack : List (ℤ × ℤ)
  deriving DecidableEq, Repr

/-- `context.save()`: push the current transformation. -/
def Ctx.save (c : Ctx) : Ctx :=
  { c with stack := c.translation :: c.stack }

/-- `context.restore()`: pop the transformation stack.  (cairo errors on an
unbalanced restore; the renderer never performs one, so the empty-stack case
is immaterial and returns the context unchanged.) -/
def Ctx.restore (c : Ctx) : Ctx :=
  match c.stack with
  | [] => c
  | t :: ts => { translation := t, stack := ts }

/-- `context.translate(dx, dy)`. -/
def Ctx.translate (c : Ctx) (dx dy : ℤ) : Ctx :=
  { c with translation := (c.translation.1 + dx, c.translation.2 + dy) }

/-- `x_count = math.ceil(self._trans.image_width() / (2 * self._trans.world_width()))`
(`cairo_renderer.py` line 99). -/
def x_count (t : Trans) : ℕ :=
  ⌈(t.image_width : ℚ) / (2 * t.world_width)⌉₊

/-- Python `range(a, b)` over integers: the list `[a, a+1, ..., b-1]`. -/
def intRange (a b : ℤ) : List ℤ :=
  (List.range (b - a).toNat).map fun i : ℕ => a + (i : ℤ)

/-- The horizontal world-duplication offsets `range(-x_count, x_count + 1)`
iterated by `render_objects` (line 101). -/
def pList (t : Trans) : List ℤ :=
  intRange (-(x_count t : ℤ)) ((x_count t : ℤ) + 1)

/-- One render invocation recorded by `render_objects`: the object (objects
are identified by a natural number, the renderer treats them opaquely) and
the context translation in force when `obj.render_cairo(self)` runs. -/
structure RenderCall where
  obj : ℕ
  origin : ℤ × ℤ
  deriving DecidableEq, Repr

/-- The body of the inner loop of `render_objects` (lines 102-105):
`save; translate(p * world_width, 0); obj.render_cairo(self); restore`. -/
def objectPass (t : Trans) (c : Ctx) (obj : ℕ) (p : ℤ) : Ctx × RenderCall :=
  let c1 := c.save
  let c2 := c1.translate (p * t.world_width) 0
  let call : RenderCall := { obj := obj, origin := c2.translation }
  let c3 := c2.restore
  (c3, call)

/-- One iteration of the inner loop of `render_objects`, threading the
context and appending the recorded render invocation to the trace. -/
def objStep (t : Trans) (obj : ℕ) (acc2 : Ctx × List RenderCall) (p : ℤ) :
    Ctx × List RenderCall :=
  let r := objectPass t acc2.1 obj p
  (r.1, acc2.2 ++ [r.2])

/-- `CairoRenderer.render_objects` (lines 88-105): for each object, for each
`p in range(-x_count, x_count + 1)`, render the object under a translation by
`p * world_width`.  Returns the final context and the trace of render
invocations in order. -/
def render_objects (t : Trans) (objects : List ℕ) (c : Ctx) :
    Ctx × List RenderCall :=
  objects.foldl (fun acc1 obj => (pList t).foldl (objStep t obj) acc1) (c, [])

theorem mem_intRange {a b p : ℤ} : p ∈ intRange a b ↔ a ≤ p ∧ p < b := by
  unfold intRange
  rw [List.mem_map]
  constructor
  · rintro ⟨i, hi, hp⟩
    rw [List.mem_range] at hi
    subst hp
    constructor <;> omega
  · rintro ⟨h1, h2⟩
    refine ⟨(p - a).toNat, ?_, ?_⟩
    · rw [List.mem_range]; omega
    · show a + ((p - a).toNat : ℤ) = p
      omega

theorem length_intRange (a b : ℤ) : (intRange a b).length = (b - a).toNat := by
  unfold intRange
  rw [List.length_map, List.length_range]

theorem objectPass_ctx (t : Trans) (c : Ctx) (obj : ℕ) (p : ℤ) :
    (objectPass t c obj p).1 = c := rfl

theorem objectPass_call (t : Trans) (c : Ctx) (obj : ℕ) (p : ℤ) :
    (objectPass t c obj p).2
      = ⟨obj, (c.translation.1 + p * t.world_width, c.translation.2)⟩ := by
  simp [objectPass, Ctx.save, Ctx.translate]

theorem objStep_eq (t : Trans) (obj : ℕ) (c : Ctx) (acc : List RenderCall)
    (p : ℤ) :
    objStep t obj (c, acc) p
      = (c, acc ++ [⟨obj, (c.translation.1 + p * t.world_width, c.translation.2)⟩]) := by
  rw [objStep]
  simp only [objectPass_ctx, objectPass_call]

theorem foldl_objStep (t : Trans) (obj : ℕ) (ps : List ℤ) (c : Ctx)
    (acc : List RenderCall) :
    ps.foldl (objStep t obj) (c, acc)
      = (c, acc ++ ps.map fun p =>
          ⟨obj, (c.translation.1 + p * t.world_width, c.translation.2)⟩) := by
  induction ps generalizing acc with
  | nil => simp
  | cons p ps ih =>
      rw [List.foldl_cons, objStep_eq, ih]
      simp

theorem render_objects_trace (t : Trans) (objects : List ℕ) (c : Ctx)
    (acc : List RenderCall) :
    objects.foldl (fun acc1 obj => (pList t).foldl (objStep t obj) acc1) (c, acc)
      = (c, acc ++ objects.flatMap fun obj => (pList t).map fun p =>
          ⟨obj, (c.translation.1 + p * t.world_width, c.translation.2)⟩) := by
  induction objects generalizing acc with
  | nil => simp
  | cons o os ih =>
      rw [List.foldl_cons, foldl_objStep, ih]
      simp

theorem length_pList (t : Trans) : (pList t).length = 2 * x_count t + 1 := by
  rw [pList, length_intRange]
  omega

theorem countP_pList_map (t : Trans) (c : Ctx) (o obj : ℕ) :
    (((pList t).map fun p =>
        (⟨o, (c.translation.1 + p * t.world_width, c.translation.2)⟩ : RenderCall)).countP
          fun rc => rc.obj == obj)
      = if o = obj then 2 * x_count t + 1 else 0 := by
  rw [List.countP_map]
  by_cases h : o = obj
  · subst h
    rw [if_pos rfl, ← length_pList]
    apply List.countP_eq_length.mpr
    intro p _
    exact beq_self_eq_true o
  · rw [if_neg h]
    apply List.countP_eq_zero.mpr
    intro p _
    simpa using h

/-- C1: in `render_objects`, every object's cairo render method is invoked
exactly `2 * x_count + 1` times (per occurrence of the object in the list),
once per horizontal offset `p` in the integer range `[-x_count, x_count]`,
with the drawing origin translated by `p * world_width` for that invocation,
where `x_count = ceil(image_width / (2 * world_width))` (definitionally,
`x_count`). -/
theorem render_objects_render_count (t : Trans) (objects : List ℕ) (c : Ctx) :
    (render_objects t objects c).2
        = (objects.flatMap fun obj => (pList t).map fun p =>
            ⟨obj, (c.translation.1 + p * t.world_width, c.translation.2)⟩)
      ∧ (∀ p : ℤ, p ∈ pList t ↔ -(x_count t : ℤ) ≤ p ∧ p ≤ (x_count t : ℤ))
      ∧ (∀ obj : ℕ,
          ((render_objects t objects c).2.countP fun rc => rc.obj == obj)
            = (2 * x_count t + 1) * objects.count obj) := by
  have htrace : (render_objects t objects c).2
      = objects.flatMap fun obj => (pList t).map fun p =>
          (⟨obj, (c.translation.1 + p * t.world_width, c.translation.2)⟩ : RenderCall) := by
    rw [render_objects, render_objects_trace]
    simp
  refine ⟨htrace, ?_, ?_⟩
  · intro p
    rw [pList, mem_intRange]
    omega
  · intro obj
    rw [htrace]
    clear htrace
    induction objects with
    | nil => simp
    | cons o os ih =>
        rw [List.flatMap_cons, List.countP_append, countP_pList_map, ih,
          List.count_cons]
        by_cases h : o = obj
        · subst h
          have hb : (o == o) = true := beq_self_eq_true o
          simp only [if_pos rfl, hb, if_true]
          rw [Nat.mul_add, Nat.mul_one]
          omega
        · simp only [if_neg h]
          have hb : (o == obj) = false := by simpa using h
          simp [hb]

/-- Raw image bytes, abstractly (an opaque byte-string token). -/
abbrev Bytes : Type := ℕ

/-- A cairo image surface: either a blank ARGB32 surface created at
construction (`cairo.ImageSurface(cairo.FORMAT_ARGB32, w, h)`) or one decoded
from a PNG stream (`cairo.ImageSurface.create_from_png`). -/
inductive Surface
  | argb32 (w h : ℕ)
  | png (b : Bytes)
  deriving DecidableEq, Repr

/-- A `PIL.Image` value at the interface `create_image` consumes: its
detected `format` string and an opaque payload identifying the pixel data. -/
structure PILImage where
  format : String
  payload : ℕ
  deriving DecidableEq, Repr

/-- The external image libraries as consumed by `create_image`:
`pil_open` is `PIL.Image.open` (per the PIL documentation it raises
`UnidentifiedImageError` — a subclass of `OSError`, not of `RuntimeError` —
when the bytes cannot be decoded as an image), `save_png` is
`image.save(buffer, format="PNG")`, and `create_from_png` is
`cairo.ImageSurface.create_from_png`. -/
structure ImgEnv where
  pil_open : Bytes → Except Exc PILImage
  save_png : PILImage → Bytes
  create_from_png : Bytes → Except Exc Surface

/-- `CairoRenderer.create_image` (lines 69-86): open the bytes with PIL; if
the detected format is PNG, feed the original bytes to cairo's PNG decoder;
otherwise re-encode through PNG first. -/
def create_image (env : ImgEnv) (image_data : Bytes) : Except Exc Surface :=
  match env.pil_open image_data with
  | .error e => .error e
  | .ok image =>
      if image.format = "PNG" then
        env.create_from_png image_data
      else
        let png_bytes := env.save_png image
        env.create_from_png png_bytes

/-- `CairoRenderer.fetch_tile` (lines 180-197): call the injected download
callback with `(zoom, x, y)`; on `None` return `None`, otherwise decode the
bytes with `create_image`. -/
def fetch_tile (env : ImgEnv) (t : Trans)
    (download : ℕ → ℤ → ℤ → Except Exc (Option Bytes)) (x y : ℤ) :
    Except Exc (Option Surface) :=
  match download t.zoom x y with
  | .error e => .error e
  | .ok none => .ok none
  | .ok (some image_data) =>
      match create_image env image_data with
      | .error e => .error e
      | .ok s => .ok (some s)

/-- Externally visible events of `render_tiles`: an invocation of the
injected download callback, or the paint of a tile at a context origin. -/
inductive TEv
  | call (zoom : ℕ) (x y : ℤ)
  | paint (origin : ℤ × ℤ)
  deriving DecidableEq, Repr

/-- The body of the inner loop of `render_tiles` (lines 136-151) for one tile
cell: compute the wrapped x index, `try` fetching and painting the tile, and
absorb exactly exceptions of class `RuntimeError` (`except RuntimeError:
pass`); any other exception class propagates.  Returns the context, the
events of this cell, and the propagating exception if any. -/
def cellStep (env : ImgEnv) (t : Trans)
    (download : ℕ → ℤ → ℤ → Except Exc (Option Bytes))
    (c : Ctx) (yy xx : ℕ) (y : ℤ) : Ctx × List TEv × Option Exc :=
  let x : ℤ := (t.first_tile_x + (xx : ℤ)) % (t.number_of_tiles : ℤ)
  match fetch_tile env t download x y with
  | .error e =>
      if e = .runtimeError then (c, [.call t.zoom x y], none)
      else (c, [.call t.zoom x y], some e)
  | .ok none => (c, [.call t.zoom x y], none)
  | .ok (some _) =>
      let c1 := c.save
      let c2 := c1.translate ((xx : ℤ) * (t.tile_size : ℤ) + t.tile_offset_x)
        ((yy : ℤ) * (t.tile_size : ℤ) + t.tile_offset_y)
      let c3 := c2.restore
      (c3, [.call t.zoom x y, .paint c2.translation], none)

/-- The inner loop of `render_tiles` over `xx in range(0, tiles_x)`; an
exception propagating out of a cell aborts the remaining iterations. -/
def rowLoop (env : ImgEnv) (t : Trans)
    (download : ℕ → ℤ → ℤ → Except Exc (Option Bytes)) (yy : ℕ) (y : ℤ) :
    Ctx → List ℕ → Ctx × List TEv × Option Exc
  | c, [] => (c, [], none)
  | c, xx :: rest =>
      let s := cellStep env t download c yy xx y
      match s.2.2 with
      | some e => (s.1, s.2.1, some e)
      | none =>
          let r := rowLoop env t download yy y s.1 rest
          (r.1, s.2.1 ++ r.2.1, r.2.2)

/-- The outer loop of `render_tiles` over `yy in range(0, tiles_y)` (lines
132-151): a row whose unwrapped `y = first_tile_y + yy` lies outside
`[0, number_of_tiles)` is skipped (`continue`) before any cell work. -/
def rowsLoop (env : ImgEnv) (t : Trans)
    (download : ℕ → ℤ → ℤ → Except Exc (Option Bytes)) :
    Ctx → List ℕ → Ctx × List TEv × Option Exc
  | c, [] => (c, [], none)
  | c, yy :: rest =>
      let y := t.first_tile_y + (yy : ℤ)
      if y < 0 ∨ (t.number_of_tiles : ℤ) ≤ y then
        rowsLoop env t download c rest
      else
        let s := rowLoop env t download yy y c (List.range t.tiles_x)
        match s.2.2 with
        | some e => (s.1, s.2.1, some e)
        | none =>
            let r := rowsLoop env t download s.1 rest
            (r.1, s.2.1 ++ r.2.1, r.2.2)

/-- `CairoRenderer.render_tiles` (lines 119-151). -/
def render_tiles (env : ImgEnv) (t : Trans)
    (download : ℕ → ℤ → ℤ → Except Exc (Option Bytes)) (c : Ctx) :
    Ctx × List TEv × Option Exc :=
  rowsLoop env t download c (List.range t.tiles_y)

/-- The download-callback invocations of one in-range row, in order. -/
def rowCalls (t : Trans) (y : ℤ) : List TEv :=
  (List.range t.tiles_x).map fun xx : ℕ =>
    .call t.zoom ((t.first_tile_x + (xx : ℤ)) % (t.number_of_tiles : ℤ)) y

/-- The rows of the tile grid whose unwrapped y index is in range, paired
with that index. -/
def inRangeRows (t : Trans) : List (ℕ × ℤ) :=
  (List.range t.tiles_y).filterMap fun yy : ℕ =>
    let y := t.first_tile_y + (yy : ℤ)
    if y < 0 ∨ (t.number_of_tiles : ℤ) ≤ y then none else some (yy, y)

/-- All download-callback invocations of a full `render_tiles` pass in which
no tile gets painted, in order. -/
def allCalls (t : Trans) : List TEv :=
  (inRangeRows t).flatMap fun r => rowCalls t r.2

theorem cellStep_ctx (env : ImgEnv) (t : Trans)
    (download : ℕ → ℤ → ℤ → Except Exc (Option Bytes))
    (c : Ctx) (yy xx : ℕ) (y : ℤ) :
    (cellStep env t download c yy xx y).1 = c := by
  simp only [cellStep]
  split
  · split <;> rfl
  · rfl
  · rfl

theorem rowLoop_ctx (env : ImgEnv) (t : Trans)
    (download : ℕ → ℤ → ℤ → Except Exc (Option Bytes)) (yy : ℕ) (y : ℤ) :
    ∀ (xs : List ℕ) (c : Ctx), (rowLoop env t download yy y c xs).1 = c := by
  intro xs
  induction xs with
  | nil => intro c; rfl
  | cons xx rest ih =>
      intro c
      rw [rowLoop]
      rcases hs : (cellStep env t download c yy xx y).2.2 with _ | e
      · simp only [hs]
        rw [ih, cellStep_ctx]
      · simp only [hs]
        exact cellStep_ctx env t download c yy xx y

theorem rowsLoop_ctx (env : ImgEnv) (t : Trans)
    (download : ℕ → ℤ → ℤ → Except Exc (Option Bytes)) :
    ∀ (ys : List ℕ) (c : Ctx), (rowsLoop env t download c ys).1 = c := by
  intro ys
  induction ys with
  | nil => intro c; rfl
  | cons yy rest ih =>
      intro c
      rw [rowsLoop]
      by_cases hy :
          t.first_tile_y + (yy : ℤ) < 0 ∨
            (t.number_of_tiles : ℤ) ≤ t.first_tile_y + (yy : ℤ)
      · simp only [if_pos hy]
        exact ih c
      · simp only [if_neg hy]
        rcases hs : (rowLoop env t download yy (t.first_tile_y + (yy : ℤ)) c
            (List.range t.tiles_x)).2.2 with _ | e
        · simp only [hs]
          rw [rowLoop_ctx]
          exact ih c
        · simp only [hs]
          exact rowLoop_ctx env t download yy _ _ c

theorem cellStep_call_mem {env : ImgEnv} {t : Trans}
    {download : ℕ → ℤ → ℤ → Except Exc (Option Bytes)}
    {c : Ctx} {yy xx : ℕ} {y : ℤ} {z : ℕ} {x' y' : ℤ}
    (hmem : TEv.call z x' y' ∈ (cellStep env t download c yy xx y).2.1) :
    z = t.zoom ∧ x' = (t.first_tile_x + (xx : ℤ)) % (t.number_of_tiles : ℤ)
      ∧ y' = y := by
  simp only [cellStep] at hmem
  split at hmem
  · split at hmem <;> simp_all
  · simp_all
  · simp_all

theorem rowLoop_call_mem {env : ImgEnv} {t : Trans}
    {download : ℕ → ℤ → ℤ → Except Exc (Option Bytes)} {yy : ℕ} {y : ℤ} :
    ∀ {xs : List ℕ} {c : Ctx} {z : ℕ} {x' y' : ℤ},
      TEv.call z x' y' ∈ (rowLoop env t download yy y c xs).2.1 →
      z = t.zoom
        ∧ (∃ xx : ℕ, x' = (t.first_tile_x + (xx : ℤ)) % (t.number_of_tiles : ℤ))
        ∧ y' = y := by
  intro xs
  induction xs with
  | nil =>
      intro c z x' y' h
      simp [rowLoop] at h
  | cons xx rest ih =>
      intro c z x' y' h
      rw [rowLoop] at h
      rcases hs : (cellStep env t download c yy xx y).2.2 with _ | e <;>
        rw [hs] at h
      · rcases List.mem_append.mp h with h1 | h2
        · obtain ⟨hz, hx, hy⟩ := cellStep_call_mem h1
          exact ⟨hz, ⟨xx, hx⟩, hy⟩
        · exact ih h2
      · obtain ⟨hz, hx, hy⟩ := cellStep_call_mem h
        exact ⟨hz, ⟨xx, hx⟩, hy⟩

theorem rowsLoop_call_mem {env : ImgEnv} {t : Trans}
    {download : ℕ → ℤ → ℤ → Except Exc (Option Bytes)} :
    ∀ {ys : List ℕ} {c : Ctx} {z : ℕ} {x' y' : ℤ},
      TEv.call z x' y' ∈ (rowsLoop env t download c ys).2.1 →
      0 ≤ x' ∧ x' < (t.number_of_tiles : ℤ)
        ∧ 0 ≤ y' ∧ y' < (t.number_of_tiles : ℤ) := by
  intro ys
  induction ys with
  | nil =>
      intro c z x' y' h
      simp [rowsLoop] at h
  | cons yy rest ih =>
      intro c z x' y' h
      rw [rowsLoop] at h
      by_cases hy :
          t.first_tile_y + (yy : ℤ) < 0 ∨
            (t.number_of_tiles : ℤ) ≤ t.first_tile_y + (yy : ℤ)
      · rw [if_pos hy] at h
        exact ih h
      · rw [if_neg hy] at h
        push_neg at hy
        have hn : (0 : ℤ) < (t.number_of_tiles : ℤ) := by omega
        have hrow : ∀ {z₁ : ℕ} {x₁ y₁ : ℤ},
            TEv.call z₁ x₁ y₁ ∈ (rowLoop env t download yy
              (t.first_tile_y + (yy : ℤ)) c (List.range t.tiles_x)).2.1 →
            0 ≤ x₁ ∧ x₁ < (t.number_of_tiles : ℤ)
              ∧ 0 ≤ y₁ ∧ y₁ < (t.number_of_tiles : ℤ) := by
          intro z₁ x₁ y₁ h₁
          obtain ⟨-, ⟨xx, hx⟩, hy₁⟩ := rowLoop_call_mem h₁
          subst hx
          subst hy₁
          refine ⟨Int.emod_nonneg _ (by omega), Int.emod_lt_of_pos _ hn, by omega,
            by omega⟩
        simp only [] at h
        rcases hs : (rowLoop env t download yy (t.first_tile_y + (yy : ℤ)) c
            (List.range t.tiles_x)).2.2 with _ | e <;>
          simp only [hs] at h
        · rcases List.mem_append.mp h with h1 | h2
          · exact hrow h1
          · exact ih h2
        · exact hrow h

theorem cellStep_exc {env : ImgEnv} {t : Trans}
    {download : ℕ → ℤ → ℤ → Except Exc (Option Bytes)}
    {c : Ctx} {yy xx : ℕ} {y : ℤ} {e : Exc}
    (h : (cellStep env t download c yy xx y).2.2 = some e) :
    e ≠ Exc.runtimeError := by
  simp only [cellStep] at h
  split at h
  · split at h
    · simp at h
    · rename_i hne
      obtain rfl : _ = e := by simpa using h
      exact hne
  · simp at h
  · simp at h

theorem rowLoop_exc {env : ImgEnv} {t : Trans}
    {download : ℕ → ℤ → ℤ → Except Exc (Option Bytes)} {yy : ℕ} {y : ℤ} :
    ∀ {xs : List ℕ} {c : Ctx} {e : Exc},
      (rowLoop env t download yy y c xs).2.2 = some e → e ≠ Exc.runtimeError := by
  intro xs
  induction xs with
  | nil =>
      intro c e h
      simp [rowLoop] at h
  | cons xx rest ih =>
      intro c e h
      rw [rowLoop] at h
      rcases hs : (cellStep env t download c yy xx y).2.2 with _ | e' <;>
        rw [hs] at h
      · exact ih h
      · obtain rfl : e' = e := by simpa using h
        exact cellStep_exc hs

theorem rowsLoop_exc {env : ImgEnv} {t : Trans}
    {download : ℕ → ℤ → ℤ → Except Exc (Option Bytes)} :
    ∀ {ys : List ℕ} {c : Ctx} {e : Exc},
      (rowsLoop env t download c ys).2.2 = some e → e ≠ Exc.runtimeError := by
  intro ys
  induction ys with
  | nil =>
      intro c e h
      simp [rowsLoop] at h
  | cons yy rest ih =>
      intro c e h
      rw [rowsLoop] at h
      by_cases hy :
          t.first_tile_y + (yy : ℤ) < 0 ∨
            (t.number_of_tiles : ℤ) ≤ t.first_tile_y + (yy : ℤ)
      · rw [if_pos hy] at h
        exact ih h
      · rw [if_neg hy] at h
        simp only [] at h
        rcases hs : (rowLoop env t download yy (t.first_tile_y + (yy : ℤ)) c
            (List.range t.tiles_x)).2.2 with _ | e' <;>
          simp only [hs] at h
        · exact ih h
        · obtain rfl : e' = e := by simpa using h
          exact rowLoop_exc hs

theorem fetch_tile_of_download_error {env : ImgEnv} {t : Trans}
    {download : ℕ → ℤ → ℤ → Except Exc (Option Bytes)} {x y : ℤ} {e : Exc}
    (h : download t.zoom x y = .error e) :
    fetch_tile env t download x y = .error e := by
  simp [fetch_tile, h, Except.bind]

theorem fetch_tile_of_download_none {env : ImgEnv} {t : Trans}
    {download : ℕ → ℤ → ℤ → Except Exc (Option Bytes)} {x y : ℤ}
    (h : download t.zoom x y = .ok none) :
    fetch_tile env t download x y = .ok none := by
  simp [fetch_tile, h, Except.bind]

theorem cellStep_no_surface {env : ImgEnv} {t : Trans}
    {download : ℕ → ℤ → ℤ → Except Exc (Option Bytes)}
    {c : Ctx} {yy xx : ℕ} {y : ℤ}
    (h : fetch_tile env t download
          ((t.first_tile_x + (xx : ℤ)) % (t.number_of_tiles : ℤ)) y = .ok none
        ∨ fetch_tile env t download
          ((t.first_tile_x + (xx : ℤ)) % (t.number_of_tiles : ℤ)) y
            = .error .runtimeError) :
    cellStep env t download c yy xx y
      = (c, [.call t.zoom ((t.first_tile_x + (xx : ℤ)) % (t.number_of_tiles : ℤ)) y],
          none) := by
  rcases h with h | h <;> simp [cellStep, h]

theorem rowLoop_no_surface {env : ImgEnv} {t : Trans}
    {download : ℕ → ℤ → ℤ → Except Exc (Option Bytes)} {yy : ℕ} {y : ℤ}
    (h : ∀ x' : ℤ, fetch_tile env t download x' y = .ok none
        ∨ fetch_tile env t download x' y = .error .runtimeError) :
    ∀ (xs : List ℕ) (c : Ctx),
      rowLoop env t download yy y c xs
        = (c, xs.map (fun xx : ℕ =>
            TEv.call t.zoom ((t.first_tile_x + (xx : ℤ)) % (t.number_of_tiles : ℤ)) y),
            none) := by
  intro xs
  induction xs with
  | nil => intro c; rfl
  | cons xx rest ih =>
      intro c
      rw [rowLoop, cellStep_no_surface (h _)]
      simp only []
      rw [ih]
      rfl

theorem rowsLoop_no_surface {env : ImgEnv} {t : Trans}
    {download : ℕ → ℤ → ℤ → Except Exc (Option Bytes)}
    (h : ∀ x' y' : ℤ, fetch_tile env t download x' y' = .ok none
        ∨ fetch_tile env t download x' y' = .error .runtimeError) :
    ∀ (ys : List ℕ) (c : Ctx),
      rowsLoop env t download c ys
        = (c, (ys.filterMap fun yy : ℕ =>
            let y := t.first_tile_y + (yy : ℤ)
            if y < 0 ∨ (t.number_of_tiles : ℤ) ≤ y then none
            else some (yy, y)).flatMap (fun r => rowCalls t r.2), none) := by
  intro ys
  induction ys with
  | nil => intro c; rfl
  | cons yy rest ih =>
      intro c
      rw [rowsLoop]
      by_cases hy :
          t.first_tile_y + (yy : ℤ) < 0 ∨
            (t.number_of_tiles : ℤ) ≤ t.first_tile_y + (yy : ℤ)
      · rw [if_pos hy, ih]
        simp [List.filterMap_cons, hy]
      · rw [if_neg hy]
        simp only []
        rw [rowLoop_no_surface (fun x' => h x' _), ih]
        simp [List.filterMap_cons, hy, rowCalls]

theorem rowsLoop_all_out {env : ImgEnv} {t : Trans}
    {download : ℕ → ℤ → ℤ → Except Exc (Option Bytes)} :
    ∀ {ys : List ℕ} {c : Ctx},
      (∀ yy ∈ ys, t.first_tile_y + (yy : ℤ) < 0
          ∨ (t.number_of_tiles : ℤ) ≤ t.first_tile_y + (yy : ℤ)) →
      rowsLoop env t download c ys = (c, [], none) := by
  intro ys
  induction ys with
  | nil => intro c _; rfl
  | cons yy rest ih =>
      intro c h
      rw [rowsLoop, if_pos (h yy (by simp))]
      exact ih fun a ha => h a (by simp [ha])

theorem render_tiles_no_surface {env : ImgEnv} {t : Trans}
    {download : ℕ → ℤ → ℤ → Except Exc (Option Bytes)} {c : Ctx}
    (h : ∀ x' y' : ℤ, fetch_tile env t download x' y' = .ok none
        ∨ fetch_tile env t download x' y' = .error .runtimeError) :
    render_tiles env t download c = (c, allCalls t, none) := by
  rw [render_tiles, rowsLoop_no_surface h]
  rfl

/-- A transformer with a 1×1 tile grid at zoom 0, for concrete runs. -/
def tFix : Trans :=
  { image_width := 256, image_height := 256, world_width := 256, zoom := 0,
    tile_size := 256, number_of_tiles := 1, first_tile_x := 0, first_tile_y := 0,
    tiles_x := 1, tiles_y := 1, tile_offset_x := 0, tile_offset_y := 0 }

/-- A transformer whose single grid row has out-of-range unwrapped y. -/
def tOut : Trans := { tFix with first_tile_y := -1 }

/-- A fresh cairo context: identity transformation, empty stack. -/
def ctx0 : Ctx := { translation := (0, 0), stack := [] }

/-- Image environment whose decoders always succeed. -/
def envOk : ImgEnv :=
  { pil_open := fun b => .ok { format := "PNG", payload := b },
    save_png := fun img => img.payload,
    create_from_png := fun b => .ok (.png b) }

/-- Image environment in which the bytes are not decodable as an image, so
`PIL.Image.open` raises `UnidentifiedImageError` (a subclass of `OSError`). -/
def envBadDecode : ImgEnv :=
  { envOk with pil_open := fun _ => .error .unidentifiedImageError }

/-- A download callback that raises `ValueError` at every cell. -/
def dlValueError : ℕ → ℤ → ℤ → Except Exc (Option Bytes) :=
  fun _ _ _ => .error .valueError

/-- A download callback that raises `RuntimeError` at every cell. -/
def dlRuntime : ℕ → ℤ → ℤ → Except Exc (Option Bytes) :=
  fun _ _ _ => .error .runtimeError

/-- A download callback that returns `None` at every cell. -/
def dlNone : ℕ → ℤ → ℤ → Except Exc (Option Bytes) :=
  fun _ _ _ => .ok none

/-- A download callback that returns tile bytes at every cell. -/
def dlBytes : ℕ → ℤ → ℤ → Except Exc (Option Bytes) :=
  fun _ _ _ => .ok (some 7)

/-- C2: whenever `render_tiles` invokes the injected fetch callback, the x
index it passes — `(first_tile_x + xx) % number_of_tiles` — lies in
`[0, number_of_tiles)`, and the y index lies in `[0, number_of_tiles)`, for
any integer `first_tile_x` and `first_tile_y`; a row whose unwrapped y index
is out of range is skipped without invoking the callback and without raising
an error. -/
theorem render_tiles_callback_args_in_range (env : ImgEnv) (t : Trans)
    (download : ℕ → ℤ → ℤ → Except Exc (Option Bytes)) (c : Ctx) :
    (∀ (z : ℕ) (x y : ℤ), TEv.call z x y ∈ (render_tiles env t download c).2.1 →
        0 ≤ x ∧ x < (t.number_of_tiles : ℤ) ∧ 0 ≤ y ∧ y < (t.number_of_tiles : ℤ))
    ∧ ((∀ yy : ℕ, yy < t.tiles_y →
          t.first_tile_y + (yy : ℤ) < 0
            ∨ (t.number_of_tiles : ℤ) ≤ t.first_tile_y + (yy : ℤ)) →
        render_tiles env t download c = (c, [], none)) := by
  constructor
  · intro z x y hmem
    exact rowsLoop_call_mem hmem
  · intro hout
    exact rowsLoop_all_out fun yy hyy => hout yy (List.mem_range.mp hyy)

theorem render_tiles_callback_args_in_range_witness :
    render_tiles envOk tOut dlNone ctx0 = (ctx0, [], none) :=
  (render_tiles_callback_args_in_range envOk tOut dlNone ctx0).2 (by decide)

/-- C3 counterexample: a `ValueError` raised by the injected fetch callback
is not caught by `except RuntimeError` and propagates out of `render_tiles`,
refuting "any error raised by the injected tile fetch function is locally
absorbed". -/
theorem render_tiles_valueError_propagates :
    (render_tiles envOk tFix dlValueError ctx0).2.2 = some Exc.valueError := rfl

/-- C3 (amended): any `RuntimeError` raised by the injected fetch function is
locally absorbed — the cell is left blank (no paint event), no exception
propagates, the context is unchanged, and every remaining in-range cell is
still processed (its callback invoked); exceptions of other classes
propagate. -/
theorem render_tiles_absorbs_runtime_fetch_errors (env : ImgEnv) (t : Trans)
    (download : ℕ → ℤ → ℤ → Except Exc (Option Bytes)) (c : Ctx)
    (h : ∀ (z : ℕ) (x y : ℤ), download z x y = .error .runtimeError) :
    render_tiles env t download c = (c, allCalls t, none) :=
  render_tiles_no_surface fun _ _ =>
    Or.inr (fetch_tile_of_download_error (h _ _ _))

theorem render_tiles_absorbs_runtime_fetch_errors_witness :
    render_tiles envOk tFix dlRuntime ctx0 = (ctx0, allCalls tFix, none) :=
  render_tiles_absorbs_runtime_fetch_errors envOk tFix dlRuntime ctx0
    fun _ _ _ => rfl

/-- C4 counterexample: tile bytes that fail to decode make `PIL.Image.open`
raise `UnidentifiedImageError` (an `OSError`), which `except RuntimeError`
does not catch, so the decode failure propagates out of `render_tiles`
instead of being absorbed. -/
theorem render_tiles_decode_error_propagates :
    (render_tiles envBadDecode tFix dlBytes ctx0).2.2
      = some Exc.unidentifiedImageError := rfl

/-- C4 (amended): a decode failure is absorbed like a fetch failure only when
it is raised as a `RuntimeError`: any exception that propagates out of
`render_tiles` is never of class `RuntimeError` (those are always absorbed
with the cell left blank), while a decode failure of another class — such as
PIL's `UnidentifiedImageError` — propagates and aborts the render. -/
theorem render_tiles_propagates_only_non_runtime (env : ImgEnv) (t : Trans)
    (download : ℕ → ℤ → ℤ → Except Exc (Option Bytes)) (c : Ctx) (e : Exc)
    (h : (render_tiles env t download c).2.2 = some e) :
    e ≠ Exc.runtimeError :=
  rowsLoop_exc h

theorem render_tiles_propagates_only_non_runtime_witness :
    (render_tiles envBadDecode tFix dlBytes ctx0).2.2
        = some Exc.unidentifiedImageError
      ∧ Exc.unidentifiedImageError ≠ Exc.runtimeError :=
  ⟨rfl, render_tiles_propagates_only_non_runtime envBadDecode tFix dlBytes ctx0
    Exc.unidentifiedImageError rfl⟩

/-- C7: `fetch_tile` returns `None` exactly when the injected callback
returned `None`, and when the callback returns `None` at every cell,
`render_tiles` skips each cell without painting anything and without error
while still invoking the callback for every remaining in-range cell. -/
theorem fetch_tile_none_skip (env : ImgEnv) (t : Trans)
    (download : ℕ → ℤ → ℤ → Except Exc (Option Bytes)) (c : Ctx) (x y : ℤ) :
    (fetch_tile env t download x y = .ok none ↔ download t.zoom x y = .ok none)
    ∧ ((∀ (z : ℕ) (a b : ℤ), download z a b = .ok none) →
        render_tiles env t download c = (c, allCalls t, none)) := by
  constructor
  · rcases hd : download t.zoom x y with e | o
    · simp [fetch_tile, hd, Except.bind]
    · rcases o with _ | d
      · simp [fetch_tile, hd, Except.bind]
      · rcases hc : create_image env d with e' | s <;>
          simp [fetch_tile, hd, hc, Except.bind, Except.map]
  · intro hall
    exact render_tiles_no_surface fun x' y' =>
      Or.inl (fetch_tile_of_download_none (hall _ _ _))

theorem fetch_tile_none_skip_witness :
    (fetch_tile envOk tFix dlNone 0 0 = .ok none ↔ dlNone tFix.zoom 0 0 = .ok none)
    ∧ render_tiles envOk tFix dlNone ctx0 = (ctx0, allCalls tFix, none) :=
  ⟨(fetch_tile_none_skip envOk tFix dlNone ctx0 0 0).1,
    (fetch_tile_none_skip envOk tFix dlNone ctx0 0 0).2 fun _ _ _ => rfl⟩

/-- C10: `render_objects` and `render_tiles` leave the cairo context's
transformation state unchanged: every translate is bracketed by a
save/restore pair, so the context after each operation equals the context
before it (for any objects, any download callback, and any outcome). -/
theorem render_preserves_context (t : Trans) (objects : List ℕ) (c : Ctx)
    (env : ImgEnv) (download : ℕ → ℤ → ℤ → Except Exc (Option Bytes)) :
    (render_objects t objects c).1 = c ∧ (render_tiles env t download c).1 = c := by
  constructor
  · rw [render_objects, render_objects_trace]
  · exact rowsLoop_ctx env t download _ c

/-- `cairo_is_supported()` (lines 29-35): `"cairo" in sys.modules`, a pure
query against the process's loaded-module table. -/
def cairo_is_supported (sysModules : List String) : Bool :=
  decide ("cairo" ∈ sysModules)

/-- The state a `CairoRenderer` holds after construction: the transformer,
the ARGB32 surface sized to `image_size()`, and a fresh cairo context. -/
structure CairoRenderer where
  trans : Trans
  surface : Surface
  context : Ctx
  deriving DecidableEq, Repr

/-- `CairoRenderer.__init__` (lines 46-53): store the transformer, raise
`RuntimeError` if the `cairo` module could not be imported, otherwise create
the ARGB32 image surface and its drawing context. -/
def CairoRenderer.init (sysModules : List String) (transformer : Trans) :
    Except Exc CairoRenderer :=
  if cairo_is_supported sysModules then
    .ok { trans := transformer,
          surface := .argb32 transformer.image_width transformer.image_height,
          context := { translation := (0, 0), stack := [] } }
  else
    .error .runtimeError

/-- C5: constructing a `CairoRenderer` raises an error if and only if the
cairo capability is unavailable, the failure is a raised `RuntimeError`
(surfaced at construction, not a crash), and `cairo_is_supported` — a pure
function of the loaded-module table, callable before construction — returns
true exactly when construction succeeds. -/
theorem cairoRenderer_init_iff_supported (sysModules : List String)
    (transformer : Trans) :
    ((∃ r, CairoRenderer.init sysModules transformer = .ok r)
        ↔ cairo_is_supported sysModules = true)
      ∧ (cairo_is_supported sysModules = false →
          CairoRenderer.init sysModules transformer = .error Exc.runtimeError) := by
  constructor
  · constructor
    · rintro ⟨r, hr⟩
      by_contra hsup
      rw [CairoRenderer.init, if_neg hsup] at hr
      exact Except.noConfusion hr
    · intro hsup
      exact ⟨_, by rw [CairoRenderer.init, if_pos hsup]⟩
  · intro hsup
    rw [CairoRenderer.init, if_neg (by simp [hsup])]

theorem cairoRenderer_init_iff_supported_witness :
    cairo_is_supported [] = false
      ∧ CairoRenderer.init [] tFix = .error Exc.runtimeError :=
  ⟨rfl, (cairoRenderer_init_iff_supported [] tFix).2 rfl⟩

/-- C8: `create_image` hands bytes whose PIL-detected format is already PNG
directly to cairo's PNG decoder, and otherwise first transcodes them through
PNG (`image.save(..., format="PNG")`); in both cases the resulting surface is
built by `create_from_png` from a PNG byte stream. -/
theorem create_image_png_routing (env : ImgEnv) (image_data : Bytes)
    (image : PILImage) (h : env.pil_open image_data = .ok image) :
    create_image env image_data
      = env.create_from_png
          (if image.format = "PNG" then image_data else env.save_png image) := by
  simp only [create_image, h]
  by_cases hf : image.format = "PNG"
  · rw [if_pos hf, if_pos hf]
  · rw [if_neg hf, if_neg hf]

theorem create_image_png_routing_witness :
    create_image envOk 5
      = envOk.create_from_png
          (if (PILImage.mk "PNG" 5).format = "PNG" then 5
            else envOk.save_png (PILImage.mk "PNG" 5)) :=
  create_image_png_routing envOk 5 (PILImage.mk "PNG" 5) rfl

/-- The parts of cairo's `font_extents()` tuple that `render_attribution`
destructures: `(_, f_descent, f_height, _, _)`. -/
structure FontExtents where
  descent : ℚ
  height : ℚ
  deriving DecidableEq, Repr

/-- The text-measurement interface of the cairo context as used by
`render_attribution`: `font_extents()` and `text_extents(text).width`, both
as functions of the current font size set by `set_font_size`. -/
structure TextEnv where
  font_extents : ℚ → FontExtents
  text_width : String → ℚ → ℚ

/-- The `while True` font-shrinking loop of `render_attribution` (lines
163-170), with an explicit fuel bound standing for the number of iterations
observed: starting from the given font size, exit with the current size once
`text_width < width - 4`, otherwise decrement the size by `0.25`; `none`
means the loop has not terminated within `fuel` iterations. -/
def shrink_loop (measure : ℚ → ℚ) (width : ℚ) : ℕ → ℚ → Option ℚ
  | 0, _ => none
  | fuel + 1, font_size =>
      if measure font_size < width - 4 then some font_size
      else shrink_loop measure width fuel (font_size - 1 / 4)

/-- What `render_attribution` draws when it completes (lines 171-178): the
translucent banner rectangle `(0, height - f_height - f_descent - 2, width,
height)` filled with white at alpha 0.8, and the attribution text shown once
at `(4, height - f_descent - 2)` with the final font size. -/
structure AttrDraw where
  font_size : ℚ
  f_descent : ℚ
  f_height : ℚ
  banner_rect : ℚ × ℚ × ℚ × ℚ
  banner_alpha : ℚ
  text_origin : ℚ × ℚ
  text : String
  deriving DecidableEq, Repr

/-- Outcome of `render_attribution`: a no-op (absent or empty attribution), a
non-terminating shrink loop (fuel exhausted at every bound), or a completed
draw. -/
inductive AttrOutcome
  | noop
  | hang
  | drew (d : AttrDraw)
  deriving DecidableEq, Repr

/-- `CairoRenderer.render_attribution` (lines 153-178). -/
def render_attribution (env : TextEnv) (t : Trans) (attribution : Option String)
    (fuel : ℕ) : AttrOutcome :=
  match attribution with
  | none => .noop
  | some s =>
      if s = "" then .noop
      else
        match shrink_loop (env.text_width s) (t.image_width : ℚ) fuel 9 with
        | none => .hang
        | some font_size =>
            let fe := env.font_extents font_size
            .drew { font_size := font_size
                    f_descent := fe.descent
                    f_height := fe.height
                    banner_rect := (0, (t.image_height : ℚ) - fe.height - fe.descent - 2,
                      (t.image_width : ℚ), (t.image_height : ℚ))
                    banner_alpha := 4 / 5
                    text_origin := (4, (t.image_height : ℚ) - fe.descent - 2)
                    text := s }

theorem shrink_loop_some {measure : ℚ → ℚ} {width : ℚ} :
    ∀ {fuel : ℕ} {start fs : ℚ}, shrink_loop measure width fuel start = some fs →
      measure fs < width - 4
        ∧ ∃ k : ℕ, fs = start - (k : ℚ) * (1 / 4)
          ∧ ∀ j : ℕ, j < k → ¬ measure (start - (j : ℚ) * (1 / 4)) < width - 4 := by
  intro fuel
  induction fuel with
  | zero =>
      intro start fs h
      simp [shrink_loop] at h
  | succ n ih =>
      intro start fs h
      rw [shrink_loop] at h
      by_cases hc : measure start < width - 4
      · rw [if_pos hc] at h
        obtain rfl : start = fs := by simpa using h
        exact ⟨hc, 0, by simp, by simp⟩
      · rw [if_neg hc] at h
        obtain ⟨hfit, k, hk, hmin⟩ := ih h
        refine ⟨hfit, k + 1, ?_, ?_⟩
        · rw [hk]
          push_cast
          ring
        · intro j hj
          rcases j with _ | j'
          · simpa using hc
          · have hstep : start - ((j' + 1 : ℕ) : ℚ) * (1 / 4)
                = start - 1 / 4 - (j' : ℚ) * (1 / 4) := by
              push_cast
              ring
            rw [hstep]
            exact hmin j' (by omega)

theorem shrink_loop_reaches {measure : ℚ → ℚ} {width : ℚ} :
    ∀ (k : ℕ) (start : ℚ), measure (start - (k : ℚ) * (1 / 4)) < width - 4 →
      ∃ fs, shrink_loop measure width (k + 1) start = some fs := by
  intro k
  induction k with
  | zero =>
      intro start h
      refine ⟨start, ?_⟩
      rw [shrink_loop, if_pos (by simpa using h)]
  | succ k' ih =>
      intro start h
      by_cases hc : measure start < width - 4
      · exact ⟨start, by rw [shrink_loop, if_pos hc]⟩
      · have h' : measure (start - 1 / 4 - (k' : ℚ) * (1 / 4)) < width - 4 := by
          have hstep : start - 1 / 4 - (k' : ℚ) * (1 / 4)
              = start - ((k' + 1 : ℕ) : ℚ) * (1 / 4) := by
            push_cast
            ring
          rw [hstep]
          exact h
        obtain ⟨fs, hfs⟩ := ih (start - 1 / 4) h'
        refine ⟨fs, ?_⟩
        rw [shrink_loop, if_neg hc]
        exact hfs

theorem shrink_loop_stuck (measure : ℚ → ℚ) (width : ℚ)
    (hm : ∀ fs, 0 ≤ measure fs) (hw : width ≤ 4) :
    ∀ (fuel : ℕ) (start : ℚ), shrink_loop measure width fuel start = none := by
  intro fuel
  induction fuel with
  | zero => intro start; rfl
  | succ n ih =>
      intro start
      rw [shrink_loop, if_neg ?hc]
      · exact ih _
      · have := hm start
        intro hcon
        linarith

/-- A text-measurement environment whose measured text width is 0 at every
font size (cairo `text_extents(...).width` is never negative; 0 occurs e.g.
for blank glyphs), with fixed font extents. -/
def envZeroText : TextEnv :=
  { font_extents := fun _ => { descent := 2, height := 10 },
    text_width := fun _ _ => 0 }

/-- A transformer whose viewport is 4 pixels wide. -/
def tNarrow : Trans := { tFix with image_width := 4 }

/-- The shrink loop of `render_attribution` never exits for this environment
and transformer: every fuel bound is exhausted. -/
def attribution_hangs (env : TextEnv) (t : Trans) (s : String) : Prop :=
  ∀ fuel : ℕ, render_attribution env t (some s) fuel = .hang

/-- C6: whenever `render_attribution` completes a draw, the measured text
width at the final font size is strictly below `width - 4` (hence at most
`width - 4`), the final font size was reached from 9.0 by 0.25-sized
decrements none of whose earlier sizes fitted, and the text is drawn as a
single line at the final size on a translucent (alpha 0.8) white banner
anchored at the bottom of the viewport. -/
theorem render_attribution_fits (env : TextEnv) (t : Trans) (s : String)
    (fuel : ℕ) (d : AttrDraw)
    (h : render_attribution env t (some s) fuel = .drew d) :
    env.text_width s d.font_size < (t.image_width : ℚ) - 4
      ∧ (∃ k : ℕ, d.font_size = 9 - (k : ℚ) * (1 / 4)
          ∧ ∀ j : ℕ, j < k →
            ¬ env.text_width s (9 - (j : ℚ) * (1 / 4)) < (t.image_width : ℚ) - 4)
      ∧ d.text = s
      ∧ d.banner_alpha = 4 / 5
      ∧ d.banner_rect = (0, (t.image_height : ℚ) - d.f_height - d.f_descent - 2,
          (t.image_width : ℚ), (t.image_height : ℚ))
      ∧ d.text_origin = (4, (t.image_height : ℚ) - d.f_descent - 2) := by
  by_cases hs : s = ""
  · simp [render_attribution, hs] at h
  · simp only [render_attribution, if_neg hs] at h
    rcases hloop : shrink_loop (env.text_width s) (t.image_width : ℚ) fuel 9
        with _ | fs <;>
      rw [hloop] at h
    · simp at h
    · obtain rfl : AttrDraw.mk fs (env.font_extents fs).descent
          (env.font_extents fs).height
          (0, (t.image_height : ℚ) - (env.font_extents fs).height
            - (env.font_extents fs).descent - 2,
            (t.image_width : ℚ), (t.image_height : ℚ))
          (4 / 5) (4, (t.image_height : ℚ) - (env.font_extents fs).descent - 2)
          s = d := by
        simpa using h
      obtain ⟨hfit, k, hk, hmin⟩ := shrink_loop_some hloop
      exact ⟨hfit, ⟨k, hk, hmin⟩, rfl, rfl, rfl, rfl⟩

theorem render_attribution_fits_witness :
    envZeroText.text_width "x"
        (AttrDraw.mk 9 2 10 (0, (256 : ℚ) - 10 - 2 - 2, 256, 256) (4 / 5)
          (4, (256 : ℚ) - 2 - 2) "x").font_size
      < (tFix.image_width : ℚ) - 4 :=
  (render_attribution_fits envZeroText tFix "x" 1
    (AttrDraw.mk 9 2 10 (0, (256 : ℚ) - 10 - 2 - 2, 256, 256) (4 / 5)
      (4, (256 : ℚ) - 2 - 2) "x")
    (by
      simp only [render_attribution, if_neg (show ¬("x" = "") by decide)]
      norm_num [shrink_loop, envZeroText, tFix])).1

/-- C9 counterexample: with a 4-pixel-wide viewport and (nonnegative)
measured text widths, the fit condition `t_width < width - 4` can never
become true, so the font-shrinking loop of `render_attribution` never
terminates, refuting termination "for every transformer". -/
theorem render_attribution_hangs_narrow :
    attribution_hangs envZeroText tNarrow "a" := by
  intro fuel
  simp only [render_attribution, if_neg (by decide : ¬("a" = ""))]
  rw [shrink_loop_stuck (envZeroText.text_width "a") (tNarrow.image_width : ℚ)
    (fun _ => le_refl 0) (by norm_num [tNarrow, tFix])]

/-- C9 (amended): the font-shrinking loop terminates exactly when the fit
condition is reachable: whenever the measured width at some font size
`9 - 0.25 * k` is below `width - 4`, `render_attribution` completes a draw
within `k + 1` iterations; termination does not hold for every transformer —
with nonnegative measured widths and a viewport at most 4 pixels wide the
loop runs forever. -/
theorem render_attribution_terminates_of_fit (env : TextEnv) (t : Trans)
    (s : String) (k : ℕ) (hs : ¬ s = "")
    (hfit : env.text_width s (9 - (k : ℚ) * (1 / 4)) < (t.image_width : ℚ) - 4) :
    ∃ d, render_attribution env t (some s) (k + 1) = .drew d := by
  obtain ⟨fs, hfs⟩ := shrink_loop_reaches k 9 hfit
  refine ⟨{ font_size := fs
            f_descent := (env.font_extents fs).descent
            f_height := (env.font_extents fs).height
            banner_rect := (0, (t.image_height : ℚ) - (env.font_extents fs).height
              - (env.font_extents fs).descent - 2,
              (t.image_width : ℚ), (t.image_height : ℚ))
            banner_alpha := 4 / 5
            text_origin := (4, (t.image_height : ℚ) - (env.font_extents fs).descent - 2)
            text := s }, ?_⟩
  simp only [render_attribution, if_neg hs, hfs]

theorem render_attribution_terminates_of_fit_witness :
    render_attribution envZeroText tFix (some "a") 1 ≠ .hang := by
  obtain ⟨d, hd⟩ := render_attribution_terminates_of_fit envZeroText tFix "a" 0
    (by decide) (by norm_num [envZeroText, tFix])
  rw [hd]
  simp

end StaticMaps
